import Mathlib

/-!
Shallow embedding of the request handler of the `dummy` streaming server
(`src/main.go`).  `ServeHTTP` parses two optional query parameters
(`size`, `buffer`), opens `/dev/urandom`, emits headers and status 200,
and copies `size` pseudo-random bytes to the response in chunks of at
most `buffer` bytes, aborting on the first read or write failure.
The development below embeds that handler and proves the specified
properties about it.
-/

/-- Default total response size, `main.go` line 14: `1 * (1 << 30)` bytes (1 GiB). -/
def defaultDataSize : Int := 1 * 2 ^ 30

/-- Default chunk-buffer size, `main.go` line 15: `32 * (1 << 10)` bytes (32 KiB). -/
def defaultBufferSize : Int := 32 * 2 ^ 10

/-- Outcome of one `Read` or `Write` call made by the handler: an error, or
the number of bytes the call reports as transferred. -/
inductive RWResult where
  | err : RWResult
  | ok : Int → RWResult
deriving DecidableEq

/-- The environment of one request: whether `os.Open("/dev/urandom")`
succeeds, and the outcome of the `j`-th read (respectively write) call when
asked to transfer a given number of bytes. -/
structure Env where
  openOk : Bool
  readRes : Nat → Int → RWResult
  writeRes : Nat → Int → RWResult

/-- The benign environment: the source opens, and every read and every write
transfers exactly the requested number of bytes. -/
def fullEnv : Env where
  openOk := true
  readRes := fun _ sz => RWResult.ok sz
  writeRes := fun _ sz => RWResult.ok sz

/-- How the copy loop of `ServeHTTP` exited: normal completion, or one of
the four abort conditions of `main.go` lines 120-153. -/
inductive ExitKind where
  | completed : ExitKind
  | readError : ExitKind
  | shortRead : ExitKind
  | writeError : ExitKind
  | shortWrite : ExitKind
deriving DecidableEq

/-- State of the copy loop at the moment it exits: the exit condition, the
number of read and of write calls issued, the lengths of the chunks that
were fully written to the response (in order), and the final value of the
`pendingSize` counter. -/
structure Exit where
  kind : ExitKind
  reads : Nat
  writes : Nat
  chunks : List Int
  pending : Int
deriving DecidableEq

/-- Observable outcome of one `ServeHTTP` invocation.  `status` is the code
passed to `WriteHeader` (if any), `contentType` the value given to
`Header().Set` (if any), `opened`/`closed` whether the data file was opened
and closed, `panicked` whether the invocation ended in a runtime panic,
`reads`/`writes` the number of read and write calls, `chunks` the lengths of
the fully written body chunks (the body length is their sum), `exitKind`
how the copy loop exited (when it ran), and `finalPending` the final value
of `pendingSize` (when the loop ran). -/
structure Outcome where
  status : Option Nat
  contentType : Option String
  opened : Bool
  closed : Bool
  panicked : Bool
  reads : Nat
  writes : Nat
  chunks : List Int
  exitKind : Option ExitKind
  finalPending : Option Int
deriving DecidableEq

/-- Value of a list of base-10 digit characters, accumulator style; `none`
when some character is not an ASCII digit. -/
def digitsVal? : List Char → Nat → Option Nat
  | [], acc => some acc
  | c :: cs, acc =>
    if c.isDigit then digitsVal? cs (acc * 10 + (c.toNat - 48)) else none

/-- Model of Go `strconv.ParseInt(s, 10, 64)`: an optional single leading
sign followed by at least one ASCII digit, with the resulting value required
to fit in a signed 64-bit integer; every other input is a parse failure. -/
def parseInt64 (s : String) : Option Int :=
  match s.data with
  | [] => none
  | c :: cs =>
    let p : Bool × List Char :=
      if c = '-' then (true, cs)
      else if c = '+' then (false, cs)
      else (false, c :: cs)
    match p.2 with
    | [] => none
    | ds =>
      match digitsVal? ds 0 with
      | none => none
      | some n =>
        let v : Int := if p.1 then -(n : Int) else (n : Int)
        if -(2 ^ 63) ≤ v ∧ v ≤ 2 ^ 63 - 1 then some v else none

/-- Resolution of one query parameter (`main.go` lines 46-60 and 67-81): the
query value `""` (absent parameter) yields the default, otherwise the value
must parse as a base-10 64-bit integer. -/
def resolveParam (text : String) (dflt : Int) : Option Int :=
  if text = "" then some dflt else parseInt64 text

/-- The streaming copy loop, `main.go` lines 112-155.  One iteration computes
`readSize` (the buffer size, or `pendingSize` when that is smaller), issues a
read, aborts on read error or on a read reporting a different size, issues a
write, aborts on write error or on a write reporting a different size, and
otherwise records the chunk and decrements `pendingSize` by `readSize`.
`fuel` bounds the number of modelled iterations: `none` means the loop did
not exit within `fuel` iterations. -/
def copyLoop (env : Env) (bufferSize : Int) (fuel : Nat) (pendingSize : Int)
    (reads writes : Nat) (chunks : List Int) : Option Exit :=
  if pendingSize > 0 then
    match fuel with
    | 0 => none
    | fuel' + 1 =>
      let readSize := if pendingSize > bufferSize then bufferSize else pendingSize
      match env.readRes reads readSize with
      | RWResult.err =>
        some ⟨ExitKind.readError, reads + 1, writes, chunks, pendingSize⟩
      | RWResult.ok n =>
        if n = readSize then
          match env.writeRes writes readSize with
          | RWResult.err =>
            some ⟨ExitKind.writeError, reads + 1, writes + 1, chunks, pendingSize⟩
          | RWResult.ok m =>
            if m = readSize then
              copyLoop env bufferSize fuel' (pendingSize - readSize) (reads + 1)
                (writes + 1) (chunks ++ [readSize])
            else
              some ⟨ExitKind.shortWrite, reads + 1, writes + 1, chunks, pendingSize⟩
        else
          some ⟨ExitKind.shortRead, reads + 1, writes, chunks, pendingSize⟩
  else
    some ⟨ExitKind.completed, reads, writes, chunks, pendingSize⟩

/-- Outcome of the `WriteHeader(http.StatusBadRequest)` paths
(`main.go` lines 56 and 77): status 400, nothing else happened. -/
def badRequestOutcome : Outcome :=
  ⟨some 400, none, false, false, false, 0, 0, [], none, none⟩

/-- Outcome of the `WriteHeader(http.StatusInternalServerError)` path
(`main.go` line 94): status 500, the data file did not open. -/
def serverErrorOutcome : Outcome :=
  ⟨some 500, none, false, false, false, 0, 0, [], none, none⟩

/-- Outcome when `make([]byte, bufferSize)` (`main.go` line 110) panics on a
negative length: headers and status 200 were already sent (lines 108-109),
the data file was opened and its deferred close still runs during panic
unwinding, and the loop never starts. -/
def panickedOutcome : Outcome :=
  ⟨some 200, some "application/octet-stream", true, true, true, 0, 0, [], none, none⟩

/-- Outcome when the copy loop ran and exited with `ex`: status 200 and the
content type were sent before the loop, and the deferred close ran. -/
def loopOutcome (ex : Exit) : Outcome :=
  ⟨some 200, some "application/octet-stream", true, true, false, ex.reads,
    ex.writes, ex.chunks, some ex.kind, some ex.pending⟩

/-- The handler `ServeHTTP`, `main.go` lines 30-167, over the query values of
the `size` and `buffer` parameters (`""` meaning absent) and an environment.
Resolution failure of `size`, then of `buffer`, yields 400 and stops; an
open failure yields 500 and stops; then the content type and status 200 are
emitted, the chunk buffer is allocated — a Go `make` with negative length
panics — and the copy loop runs.  `none` models an invocation whose loop has
not exited within `fuel` iterations. -/
def serveHTTP (env : Env) (sizeText bufferText : String) (fuel : Nat) :
    Option Outcome :=
  match resolveParam sizeText defaultDataSize with
  | none => some badRequestOutcome
  | some dataSize =>
    match resolveParam bufferText defaultBufferSize with
    | none => some badRequestOutcome
    | some bufferSize =>
      if env.openOk then
        if bufferSize < 0 then
          some panickedOutcome
        else
          match copyLoop env bufferSize fuel dataSize 0 0 [] with
          | none => none
          | some ex => some (loopOutcome ex)
      else
        some serverErrorOutcome

/-- The list of chunk lengths the specification prescribes for a transfer of
`S` bytes through a buffer of `B` bytes: `S / B` full chunks of `B` bytes
followed by one chunk of `S % B` bytes when that remainder is not zero. -/
def chunkList (S B : Nat) : List Nat :=
  List.replicate (S / B) B ++ (if S % B = 0 then [] else [S % B])

/-- `chunkList` transported to the integer sizes used by the handler. -/
def chunkListI (S B : Int) : List Int :=
  (chunkList S.toNat B.toNat).map Int.ofNat

/-- An environment whose byte source fails to open; reads and writes (which
are never reached) would succeed in full. -/
def noOpenEnv : Env where
  openOk := false
  readRes := fun _ sz => RWResult.ok sz
  writeRes := fun _ sz => RWResult.ok sz

/-- An environment whose byte source opens, whose reads succeed in full
except the read of index 1 (the second read), which errors, and whose writes
all succeed in full. -/
def failSecondReadEnv : Env where
  openOk := true
  readRes := fun j sz => if j = 1 then RWResult.err else RWResult.ok sz
  writeRes := fun _ sz => RWResult.ok sz

/-- The outcome of a fully successful transfer of 5 bytes through a 2-byte
buffer: three chunks of lengths 2, 2 and 1, used to instantiate theorems at
a concrete request. -/
def fiveTwoOutcome : Outcome :=
  ⟨some 200, some "application/octet-stream", true, true, false, 3, 3,
    [2, 2, 1], some ExitKind.completed, some 0⟩

theorem chunkList_zero (B : Nat) : chunkList 0 B = [] := by
  simp [chunkList]

theorem chunkList_cons (S B : Nat) (hB : 1 ≤ B) (hS : 1 ≤ S) :
    chunkList S B = min S B :: chunkList (S - min S B) B := by
  rcases le_or_lt B S with h | h
  · have hmin : min S B = B := by omega
    have hdiv : S / B = (S - B) / B + 1 := by
      conv_lhs => rw [Nat.div_eq]
      simp only [if_pos (show 0 < B ∧ B ≤ S by omega)]
    have hmod : S % B = (S - B) % B := by
      conv_lhs => rw [Nat.mod_eq]
      simp only [if_pos (show 0 < B ∧ B ≤ S by omega)]
    rw [hmin]
    unfold chunkList
    rw [hdiv, hmod, List.replicate_succ]
    simp
  · have hmin : min S B = S := by omega
    have hdiv : S / B = 0 := Nat.div_eq_of_lt h
    have hmod : S % B = S := Nat.mod_eq_of_lt h
    rw [hmin]
    unfold chunkList
    rw [hdiv, hmod, Nat.sub_self, Nat.zero_div, Nat.zero_mod]
    rw [if_neg (show ¬ S = 0 by omega), if_pos rfl]
    simp

theorem chunkList_sum (S B : Nat) : (chunkList S B).sum = S := by
  have h := Nat.div_add_mod' S B
  rw [chunkList]
  by_cases h0 : S % B = 0
  · rw [if_pos h0, List.append_nil, List.sum_replicate, smul_eq_mul]
    omega
  · rw [if_neg h0, List.sum_append, List.sum_replicate, smul_eq_mul,
      List.sum_cons, List.sum_nil]
    omega

theorem chunkList_length (S B : Nat) (hB : 1 ≤ B) :
    (chunkList S B).length = (S + B - 1) / B := by
  have e0 : S + B - 1 = S + (B - 1) := by omega
  have hd0 : (B - 1) / B = 0 := Nat.div_eq_of_lt (by omega)
  have hm0 : (B - 1) % B = B - 1 := Nat.mod_eq_of_lt (by omega)
  have hr : S % B < B := Nat.mod_lt _ (by omega)
  rw [chunkList, List.length_append, List.length_replicate, e0,
    Nat.add_div (show 0 < B by omega), hd0, hm0]
  by_cases h0 : S % B = 0
  · rw [if_pos h0, List.length_nil, if_neg (show ¬ B ≤ S % B + (B - 1) by omega)]
  · rw [if_neg h0, List.length_singleton, if_pos (show B ≤ S % B + (B - 1) by omega)]

theorem chunkList_dropLast (S B : Nat) :
    ∀ c ∈ (chunkList S B).dropLast, c = B := by
  intro c hc
  rw [chunkList] at hc
  by_cases h0 : S % B = 0
  · rw [if_pos h0, List.append_nil] at hc
    exact List.eq_of_mem_replicate (List.dropLast_subset _ hc)
  · rw [if_neg h0, List.dropLast_concat] at hc
    exact List.eq_of_mem_replicate hc

theorem chunkList_getLast (S B : Nat) (hS : 0 < S) :
    (chunkList S B).getLast? = some (if S % B = 0 then B else S % B) := by
  rw [chunkList]
  by_cases h0 : S % B = 0
  · rw [if_pos h0, if_pos h0, List.append_nil]
    have hq : S / B ≠ 0 := by
      intro hq0
      have hdm := Nat.div_add_mod S B
      rw [hq0, Nat.mul_zero, Nat.zero_add] at hdm
      omega
    obtain ⟨q, hq'⟩ := Nat.exists_eq_succ_of_ne_zero hq
    rw [hq', List.replicate_succ']
    exact List.getLast?_concat _
  · rw [if_neg h0, if_neg h0]
    exact List.getLast?_concat _

theorem chunkList_get?_min (B : Nat) (hB : 1 ≤ B) :
    ∀ (S i : Nat), i < (chunkList S B).length →
      (chunkList S B).get? i =
        some (min (S - ((chunkList S B).take i).sum) B) := by
  intro S
  induction S using Nat.strong_induction_on with
  | _ S IH =>
    intro i h
    rcases Nat.eq_zero_or_pos S with rfl | hS
    · rw [chunkList_zero] at h
      simp at h
    · have hcons := chunkList_cons S B hB hS
      rcases i with _ | j
      · rw [hcons]
        simp
      · rw [hcons] at h ⊢
        simp only [List.length_cons] at h
        have hj : j < (chunkList (S - min S B) B).length := by omega
        simp only [List.get?_cons_succ, List.take_succ_cons, List.sum_cons]
        rw [IH (S - min S B) (by omega) j hj]
        have he : (S - min S B) - ((chunkList (S - min S B) B).take j).sum
            = S - (min S B + ((chunkList (S - min S B) B).take j).sum) := by
          omega
        rw [he]

theorem chunkListI_nonpos (S B : Int) (hS : S ≤ 0) : chunkListI S B = [] := by
  unfold chunkListI
  rw [show S.toNat = 0 by omega, chunkList_zero]
  rfl

theorem chunkListI_cons (S B : Int) (hB : 1 ≤ B) (hS : 0 < S) :
    chunkListI S B =
      (if S > B then B else S) :: chunkListI (S - if S > B then B else S) B := by
  have h1 := chunkList_cons S.toNat B.toNat (by omega) (by omega)
  have e1 : Int.ofNat (min S.toNat B.toNat) = if S > B then B else S := by
    rw [Int.ofNat_eq_natCast]
    push_cast
    split <;> omega
  have e2 : S.toNat - min S.toNat B.toNat = (S - if S > B then B else S).toNat := by
    split <;> omega
  unfold chunkListI
  rw [h1, List.map_cons, e1, e2]

theorem chunkListI_length_pos (S B : Int) (h : 1 ≤ (chunkListI S B).length) :
    0 < S := by
  by_contra hc
  rw [chunkListI_nonpos S B (by omega)] at h
  simp at h

theorem copyLoop_exit (env : Env) (B : Int) (fuel : Nat) (p : Int) (r w : Nat)
    (c : List Int) (h : ¬ p > 0) :
    copyLoop env B fuel p r w c = some ⟨ExitKind.completed, r, w, c, p⟩ := by
  unfold copyLoop
  rw [if_neg h]

theorem copyLoop_fuel_zero (env : Env) (B : Int) (p : Int) (r w : Nat)
    (c : List Int) (h : p > 0) :
    copyLoop env B 0 p r w c = none := by
  unfold copyLoop
  rw [if_pos h]

theorem copyLoop_succ (env : Env) (B : Int) (fuel : Nat) (p : Int) (r w : Nat)
    (c : List Int) (h : p > 0) :
    copyLoop env B (fuel + 1) p r w c =
      (let readSize := if p > B then B else p
       match env.readRes r readSize with
       | RWResult.err => some ⟨ExitKind.readError, r + 1, w, c, p⟩
       | RWResult.ok n =>
         if n = readSize then
           match env.writeRes w readSize with
           | RWResult.err => some ⟨ExitKind.writeError, r + 1, w + 1, c, p⟩
           | RWResult.ok m =>
             if m = readSize then
               copyLoop env B fuel (p - readSize) (r + 1) (w + 1) (c ++ [readSize])
             else some ⟨ExitKind.shortWrite, r + 1, w + 1, c, p⟩
         else some ⟨ExitKind.shortRead, r + 1, w, c, p⟩) := by
  conv_lhs => unfold copyLoop
  rw [if_pos h]

theorem copyLoop_fullRW (env : Env) (B : Int) (hB : 1 ≤ B)
    (hr : ∀ j sz, env.readRes j sz = RWResult.ok sz)
    (hw : ∀ j sz, env.writeRes j sz = RWResult.ok sz) :
    ∀ (fuel : Nat) (S : Int) (r w : Nat) (acc : List Int),
      0 ≤ S → S.toNat ≤ fuel →
      copyLoop env B fuel S r w acc =
        some ⟨ExitKind.completed, r + (chunkListI S B).length,
          w + (chunkListI S B).length, acc ++ chunkListI S B, 0⟩ := by
  intro fuel
  induction fuel with
  | zero =>
    intro S r w acc hS0 hfuel
    have h0 : S = 0 := by omega
    subst h0
    rw [copyLoop_exit env B 0 0 r w acc (by omega), chunkListI_nonpos 0 B le_rfl]
    simp
  | succ fuel ih =>
    intro S r w acc hS0 hfuel
    rcases eq_or_lt_of_le hS0 with h0 | hpos
    · rw [← h0]
      rw [copyLoop_exit env B (fuel + 1) 0 r w acc (by omega),
        chunkListI_nonpos 0 B le_rfl]
      simp
    · rw [copyLoop_succ env B fuel S r w acc hpos]
      have hrs : (1 : Int) ≤ (if S > B then B else S) ∧
          (if S > B then B else S) ≤ S := by
        constructor <;> (split <;> omega)
      simp only [hr, hw]
      rw [ih (S - if S > B then B else S) (r + 1) (w + 1)
        (acc ++ [if S > B then B else S]) (by omega) (by omega)]
      rw [chunkListI_cons S B hB hpos]
      simp only [List.length_cons, List.append_assoc, List.singleton_append,
        if_true, eq_self_iff_true, Option.some.injEq, Exit.mk.injEq]
      exact ⟨trivial, by omega, by omega, trivial, trivial⟩

theorem copyLoop_bounds (env : Env) (B : Int) (hB : 1 ≤ B) :
    ∀ (fuel : Nat) (S : Int) (r w : Nat) (acc : List Int) (ex : Exit),
      0 ≤ S →
      copyLoop env B fuel S r w acc = some ex →
      ∃ nc, ex.chunks = acc ++ nc ∧ ex.pending = S - nc.sum ∧ 0 ≤ ex.pending ∧
        (∀ i, ((nc.take i).sum) ≤ S) ∧
        (ex.kind = ExitKind.completed → ex.pending = 0) := by
  intro fuel
  induction fuel with
  | zero =>
    intro S r w acc ex hS0 hrun
    have hp : ¬ S > 0 := by
      intro hp
      rw [copyLoop_fuel_zero env B S r w acc hp] at hrun
      exact Option.noConfusion hrun
    rw [copyLoop_exit env B 0 S r w acc hp] at hrun
    obtain rfl := (Option.some.inj hrun).symm
    refine ⟨[], by simp, by simp, hS0, ?_, ?_⟩
    · intro i
      simpa using hS0
    · intro _
      show S = 0
      omega
  | succ fuel ih =>
    intro S r w acc ex hS0 hrun
    by_cases hp : S > 0
    · rw [copyLoop_succ env B fuel S r w acc hp] at hrun
      have hrs : (1 : Int) ≤ (if S > B then B else S) ∧
          (if S > B then B else S) ≤ S := by
        constructor <;> (split <;> omega)
      rcases hread : env.readRes r (if S > B then B else S) with _ | n
      · simp only [hread] at hrun
        obtain rfl := (Option.some.inj hrun).symm
        refine ⟨[], by simp, by simp, by show (0:Int) ≤ S; omega, ?_, ?_⟩
        · intro i
          simpa using hS0
        · intro h
          exact absurd h (by simp)
      · simp only [hread] at hrun
        by_cases hn : n = (if S > B then B else S)
        · rw [if_pos hn] at hrun
          rcases hwrite : env.writeRes w (if S > B then B else S) with _ | m
          · simp only [hwrite] at hrun
            obtain rfl := (Option.some.inj hrun).symm
            refine ⟨[], by simp, by simp, by show (0:Int) ≤ S; omega, ?_, ?_⟩
            · intro i
              simpa using hS0
            · intro h
              exact absurd h (by simp)
          · simp only [hwrite] at hrun
            by_cases hm : m = (if S > B then B else S)
            · rw [if_pos hm] at hrun
              obtain ⟨nc, h1, h2, h3, h4, h5⟩ :=
                ih (S - if S > B then B else S) (r + 1) (w + 1)
                  (acc ++ [if S > B then B else S]) ex (by omega) hrun
              refine ⟨(if S > B then B else S) :: nc, ?_, ?_, h3, ?_, h5⟩
              · rw [h1, List.append_assoc, List.singleton_append]
              · rw [h2, List.sum_cons]
                ring
              · intro i
                rcases i with _ | j
                · simpa using hS0
                · rw [List.take_succ_cons, List.sum_cons]
                  have := h4 j
                  omega
            · rw [if_neg hm] at hrun
              obtain rfl := (Option.some.inj hrun).symm
              refine ⟨[], by simp, by simp, by show (0:Int) ≤ S; omega, ?_, ?_⟩
              · intro i
                simpa using hS0
              · intro h
                exact absurd h (by simp)
        · rw [if_neg hn] at hrun
          obtain rfl := (Option.some.inj hrun).symm
          refine ⟨[], by simp, by simp, by show (0:Int) ≤ S; omega, ?_, ?_⟩
          · intro i
            simpa using hS0
          · intro h
            exact absurd h (by simp)
    · rw [copyLoop_exit env B (fuel + 1) S r w acc hp] at hrun
      obtain rfl := (Option.some.inj hrun).symm
      refine ⟨[], by simp, by simp, hS0, ?_, ?_⟩
      · intro i
        simpa using hS0
      · intro _
        show S = 0
        omega

theorem copyLoop_fail_read (env : Env) (B : Int) (hB : 1 ≤ B) :
    ∀ (m : Nat) (S : Int) (fuel : Nat) (r w : Nat) (acc : List Int),
      m + 1 ≤ (chunkListI S B).length →
      (∀ j sz, j < r + m → env.readRes j sz = RWResult.ok sz) →
      (∀ j sz, j < w + m → env.writeRes j sz = RWResult.ok sz) →
      (∀ sz, env.readRes (r + m) sz ≠ RWResult.ok sz) →
      m + 1 ≤ fuel →
      ∃ ex, copyLoop env B fuel S r w acc = some ex ∧
        ex.reads = r + m + 1 ∧ ex.writes = w + m ∧
        ex.chunks.length = acc.length + m ∧
        (ex.kind = ExitKind.readError ∨ ex.kind = ExitKind.shortRead) := by
  intro m
  induction m with
  | zero =>
    intro S fuel r w acc hlen hre hwr hfail hfuel
    have hpos : 0 < S := chunkListI_length_pos S B (by omega)
    obtain ⟨fuel', rfl⟩ : ∃ f, fuel = f + 1 := ⟨fuel - 1, by omega⟩
    simp only [Nat.add_zero] at hfail
    rcases hread : env.readRes r (if S > B then B else S) with _ | n
    · have heval : copyLoop env B (fuel' + 1) S r w acc =
          some ⟨ExitKind.readError, r + 1, w, acc, S⟩ := by
        rw [copyLoop_succ env B fuel' S r w acc hpos]
        simp only [hread]
      exact ⟨_, heval, by simp, by simp, by simp, Or.inl rfl⟩
    · have hn : ¬ n = (if S > B then B else S) := by
        intro he
        rw [he] at hread
        exact hfail _ hread
      have heval : copyLoop env B (fuel' + 1) S r w acc =
          some ⟨ExitKind.shortRead, r + 1, w, acc, S⟩ := by
        rw [copyLoop_succ env B fuel' S r w acc hpos]
        simp only [hread, if_neg hn]
      exact ⟨_, heval, by simp, by simp, by simp, Or.inr rfl⟩
  | succ m ih =>
    intro S fuel r w acc hlen hre hwr hfail hfuel
    have hpos : 0 < S := chunkListI_length_pos S B (by omega)
    obtain ⟨fuel', rfl⟩ : ∃ f, fuel = f + 1 := ⟨fuel - 1, by omega⟩
    have hrs : (1 : Int) ≤ (if S > B then B else S) ∧
        (if S > B then B else S) ≤ S := by
      constructor <;> (split <;> omega)
    have hlen' : m + 1 ≤ (chunkListI (S - if S > B then B else S) B).length := by
      rw [chunkListI_cons S B hB hpos, List.length_cons] at hlen
      omega
    have hre' : ∀ j sz, j < (r + 1) + m → env.readRes j sz = RWResult.ok sz := by
      intro j sz hj
      exact hre j sz (by omega)
    have hwr' : ∀ j sz, j < (w + 1) + m → env.writeRes j sz = RWResult.ok sz := by
      intro j sz hj
      exact hwr j sz (by omega)
    have hfail' : ∀ sz, env.readRes ((r + 1) + m) sz ≠ RWResult.ok sz := by
      intro sz
      have h := hfail sz
      rwa [show r + (m + 1) = r + 1 + m by omega] at h
    obtain ⟨ex, heq, hr1, hw1, hc1, hk1⟩ :=
      ih (S - if S > B then B else S) fuel' (r + 1) (w + 1)
        (acc ++ [if S > B then B else S]) hlen' hre' hwr' hfail' (by omega)
    refine ⟨ex, ?_, by omega, by omega, ?_, hk1⟩
    · rw [copyLoop_succ env B fuel' S r w acc hpos]
      simp only [hre r _ (by omega), hwr w _ (by omega), if_true, eq_self_iff_true]
      exact heq
    · rw [hc1, List.length_append, List.length_singleton]
      omega

theorem sum_map_ofNat (l : List Nat) : (l.map Int.ofNat).sum = Int.ofNat l.sum := by
  induction l with
  | nil => rfl
  | cons a t ihl =>
    rw [List.map_cons, List.sum_cons, List.sum_cons, ihl, Int.ofNat_eq_natCast,
      Int.ofNat_eq_natCast, Int.ofNat_eq_natCast, Nat.cast_add]

theorem chunkListI_sum (S B : Int) (hS0 : 0 ≤ S) : (chunkListI S B).sum = S := by
  unfold chunkListI
  rw [sum_map_ofNat, chunkList_sum, Int.ofNat_eq_natCast, Int.toNat_of_nonneg hS0]

theorem chunkListI_length (S B : Int) (hB : 1 ≤ B) :
    (chunkListI S B).length = (S.toNat + B.toNat - 1) / B.toNat := by
  unfold chunkListI
  rw [List.length_map, chunkList_length S.toNat B.toNat (by omega)]

theorem chunkListI_dropLast (S B : Int) (hB : 1 ≤ B) :
    ∀ c ∈ (chunkListI S B).dropLast, c = B := by
  intro c hc
  unfold chunkListI at hc
  rw [← List.map_dropLast] at hc
  obtain ⟨a, ha, rfl⟩ := List.mem_map.mp hc
  rw [chunkList_dropLast S.toNat B.toNat a ha, Int.ofNat_eq_natCast,
    Int.toNat_of_nonneg (by omega)]

theorem chunkListI_getLast (S B : Int) (hS : 0 < S) (hB : 1 ≤ B) :
    (chunkListI S B).getLast? = some (if S % B = 0 then B else S % B) := by
  unfold chunkListI
  rw [List.getLast?_map, chunkList_getLast S.toNat B.toNat (by omega),
    Option.map_some']
  have hmod : S % B = ((S.toNat % B.toNat : Nat) : Int) := by
    rw [Int.natCast_mod, Int.toNat_of_nonneg (by omega : (0:Int) ≤ S),
      Int.toNat_of_nonneg (by omega : (0:Int) ≤ B)]
  by_cases h0 : S.toNat % B.toNat = 0
  · have hz : S % B = 0 := by
      rw [hmod, h0]
      exact Nat.cast_zero
    rw [if_pos h0, if_pos hz, Int.ofNat_eq_natCast,
      Int.toNat_of_nonneg (by omega : (0:Int) ≤ B)]
  · have hne : ¬ S % B = 0 := by
      rw [hmod]
      intro hc
      exact h0 (Nat.cast_eq_zero.mp hc)
    rw [if_neg h0, if_neg hne, Int.ofNat_eq_natCast, hmod]

theorem take_sum_le (l : List Nat) : ∀ i, (l.take i).sum ≤ l.sum := by
  induction l with
  | nil =>
    intro i
    simp
  | cons a t ihl =>
    intro i
    rcases i with _ | j
    · simp
    · rw [List.take_succ_cons, List.sum_cons, List.sum_cons]
      have h := ihl j
      omega

theorem chunkListI_get?_min (S B : Int) (hS0 : 0 ≤ S) (hB : 1 ≤ B) :
    ∀ i, i < (chunkListI S B).length →
      (chunkListI S B).get? i =
        some (min (S - ((chunkListI S B).take i).sum) B) := by
  intro i hi
  unfold chunkListI at hi ⊢
  rw [List.length_map] at hi
  rw [List.get?_map, chunkList_get?_min B.toNat (by omega) S.toNat i hi,
    Option.map_some']
  have hts : ((chunkList S.toNat B.toNat).take i).sum ≤ S.toNat := by
    have h := take_sum_le (chunkList S.toNat B.toNat) i
    rw [chunkList_sum] at h
    exact h
  rw [← List.map_take, sum_map_ofNat, Int.ofNat_eq_natCast, Int.ofNat_eq_natCast,
    Nat.cast_min, Nat.cast_sub hts, Int.toNat_of_nonneg hS0,
    Int.toNat_of_nonneg (by omega : (0:Int) ≤ B)]

theorem serveHTTP_loop_eq (env : Env) (sizeText bufferText : String) (S B : Int)
    (fuel : Nat) (hS : resolveParam sizeText defaultDataSize = some S)
    (hB : resolveParam bufferText defaultBufferSize = some B)
    (henv : env.openOk = true) (hB0 : ¬ B < 0) :
    serveHTTP env sizeText bufferText fuel =
      Option.map loopOutcome (copyLoop env B fuel S 0 0 []) := by
  simp only [serveHTTP, hS, hB, henv, eq_self_iff_true, if_true, if_neg hB0]
  cases copyLoop env B fuel S 0 0 [] <;> rfl

/-- C1: for every request whose `size` parameter resolves to an integer
`S ≥ 0` and whose `buffer` parameter resolves to an integer `B ≥ 1`
(defaults when absent), in an environment where the byte source opens and
every read and write succeeds in full, the handler responds with status 200,
`Content-Type: application/octet-stream`, and a body of exactly `S` bytes
(the total length of the written chunks is `S`). -/
theorem c1_success_response (env : Env) (sizeText bufferText : String)
    (S B : Int) (fuel : Nat)
    (hS : resolveParam sizeText defaultDataSize = some S) (hS0 : 0 ≤ S)
    (hB : resolveParam bufferText defaultBufferSize = some B) (hB1 : 1 ≤ B)
    (henv : env.openOk = true)
    (hread : ∀ j sz, env.readRes j sz = RWResult.ok sz)
    (hwrite : ∀ j sz, env.writeRes j sz = RWResult.ok sz)
    (hfuel : S.toNat ≤ fuel) :
    ∃ o, serveHTTP env sizeText bufferText fuel = some o ∧
      o.status = some 200 ∧
      o.contentType = some "application/octet-stream" ∧
      o.chunks.sum = S := by
  rw [serveHTTP_loop_eq env sizeText bufferText S B fuel hS hB henv (by omega),
    copyLoop_fullRW env B hB1 hread hwrite fuel S 0 0 [] hS0 hfuel]
  refine ⟨_, rfl, rfl, rfl, ?_⟩
  show (([] : List Int) ++ chunkListI S B).sum = S
  rw [List.nil_append, chunkListI_sum S B hS0]

theorem c1_success_response_witness :
    resolveParam "5" defaultDataSize = some 5 ∧ (0:Int) ≤ 5 ∧
    resolveParam "2" defaultBufferSize = some 2 ∧ (1:Int) ≤ 2 ∧
    fullEnv.openOk = true ∧ (5:Int).toNat ≤ 5 ∧
    (∃ o, serveHTTP fullEnv "5" "2" 5 = some o ∧
      o.status = some 200 ∧
      o.contentType = some "application/octet-stream" ∧
      o.chunks.sum = 5) :=
  ⟨by decide, by decide, by decide, by decide, rfl, by decide,
    c1_success_response fullEnv "5" "2" 5 2 5 (by decide) (by decide) (by decide)
      (by decide) rfl (fun _ _ => rfl) (fun _ _ => rfl) (by decide)⟩

/-- C2: for every request with resolved sizes `S ≥ 0` and `B ≥ 1`, under an
environment of fully successful reads and writes, the number of read and of
write chunk operations equals `ceil(S / B) = (S + B - 1) / B` (zero when
`S = 0`); the `i`-th chunk has length `min(remaining, B)` where `remaining`
is `S` minus the bytes already transferred; every chunk except possibly the
last has length `B`; and the last chunk has length `S mod B`, or `B` when
`S mod B = 0` and `S > 0`. -/
theorem c2_chunk_structure (env : Env) (sizeText bufferText : String)
    (S B : Int) (fuel : Nat)
    (hS : resolveParam sizeText defaultDataSize = some S) (hS0 : 0 ≤ S)
    (hB : resolveParam bufferText defaultBufferSize = some B) (hB1 : 1 ≤ B)
    (henv : env.openOk = true)
    (hread : ∀ j sz, env.readRes j sz = RWResult.ok sz)
    (hwrite : ∀ j sz, env.writeRes j sz = RWResult.ok sz)
    (hfuel : S.toNat ≤ fuel) :
    ∃ o, serveHTTP env sizeText bufferText fuel = some o ∧
      o.reads = (S.toNat + B.toNat - 1) / B.toNat ∧
      o.writes = (S.toNat + B.toNat - 1) / B.toNat ∧
      (S = 0 → o.reads = 0 ∧ o.chunks = []) ∧
      (∀ i, i < o.chunks.length →
        o.chunks.get? i = some (min (S - (o.chunks.take i).sum) B)) ∧
      (∀ c ∈ o.chunks.dropLast, c = B) ∧
      (0 < S → o.chunks.getLast? = some (if S % B = 0 then B else S % B)) := by
  rw [serveHTTP_loop_eq env sizeText bufferText S B fuel hS hB henv (by omega),
    copyLoop_fullRW env B hB1 hread hwrite fuel S 0 0 [] hS0 hfuel]
  refine ⟨_, rfl, ?_, ?_, ?_, ?_, ?_, ?_⟩
  · show 0 + (chunkListI S B).length = (S.toNat + B.toNat - 1) / B.toNat
    rw [Nat.zero_add, chunkListI_length S B hB1]
  · show 0 + (chunkListI S B).length = (S.toNat + B.toNat - 1) / B.toNat
    rw [Nat.zero_add, chunkListI_length S B hB1]
  · intro h0
    constructor
    · show 0 + (chunkListI S B).length = 0
      rw [chunkListI_nonpos S B (by omega)]
      rfl
    · show (chunkListI S B) = []
      exact chunkListI_nonpos S B (by omega)
  · intro i hi
    replace hi : i < (chunkListI S B).length := hi
    show (chunkListI S B).get? i =
      some (min (S - ((chunkListI S B).take i).sum) B)
    exact chunkListI_get?_min S B hS0 hB1 i hi
  · intro c hc
    replace hc : c ∈ (chunkListI S B).dropLast := hc
    exact chunkListI_dropLast S B hB1 c hc
  · intro hpos
    show (chunkListI S B).getLast? = some (if S % B = 0 then B else S % B)
    exact chunkListI_getLast S B hpos hB1

theorem c2_chunk_structure_witness :
    resolveParam "5" defaultDataSize = some 5 ∧ (0:Int) ≤ 5 ∧
    resolveParam "2" defaultBufferSize = some 2 ∧ (1:Int) ≤ 2 ∧
    fullEnv.openOk = true ∧ (5:Int).toNat ≤ 5 ∧
    (∃ o, serveHTTP fullEnv "5" "2" 5 = some o ∧
      o.reads = ((5:Int).toNat + (2:Int).toNat - 1) / (2:Int).toNat ∧
      o.writes = ((5:Int).toNat + (2:Int).toNat - 1) / (2:Int).toNat ∧
      ((5:Int) = 0 → o.reads = 0 ∧ o.chunks = []) ∧
      (∀ i, i < o.chunks.length →
        o.chunks.get? i = some (min (5 - (o.chunks.take i).sum) 2)) ∧
      (∀ c ∈ o.chunks.dropLast, c = 2) ∧
      ((0:Int) < 5 → o.chunks.getLast? = some (if (5:Int) % 2 = 0 then 2 else 5 % 2))) :=
  ⟨by decide, by decide, by decide, by decide, rfl, by decide,
    c2_chunk_structure fullEnv "5" "2" 5 2 5 (by decide) (by decide) (by decide)
      (by decide) rfl (fun _ _ => rfl) (fun _ _ => rfl) (by decide)⟩

/-- C3: for every request in which the `size` or the `buffer` query parameter
is present (non-empty) but does not parse as a base-10 integer, the handler
responds with status 400, writes no body, performs no reads or writes, and
opens no byte source (in particular no byte source is opened when the `size`
parameter is the invalid one). -/
theorem c3_parse_failure (env : Env) (sizeText bufferText : String) (fuel : Nat)
    (h : (sizeText ≠ "" ∧ parseInt64 sizeText = none) ∨
         (bufferText ≠ "" ∧ parseInt64 bufferText = none)) :
    ∃ o, serveHTTP env sizeText bufferText fuel = some o ∧
      o.status = some 400 ∧ o.chunks = [] ∧ o.reads = 0 ∧ o.writes = 0 ∧
      o.opened = false := by
  rcases h with ⟨hne, hp⟩ | ⟨hne, hp⟩
  · have hres : resolveParam sizeText defaultDataSize = none := by
      rw [resolveParam, if_neg hne, hp]
    simp only [serveHTTP, hres]
    exact ⟨_, rfl, rfl, rfl, rfl, rfl, rfl⟩
  · have hres : resolveParam bufferText defaultBufferSize = none := by
      rw [resolveParam, if_neg hne, hp]
    rcases hsz : resolveParam sizeText defaultDataSize with _ | S
    · simp only [serveHTTP, hsz]
      exact ⟨_, rfl, rfl, rfl, rfl, rfl, rfl⟩
    · simp only [serveHTTP, hsz, hres]
      exact ⟨_, rfl, rfl, rfl, rfl, rfl, rfl⟩

theorem c3_parse_failure_witness :
    (("abc" : String) ≠ "" ∧ parseInt64 "abc" = none) ∧
    (∃ o, serveHTTP fullEnv "abc" "" 5 = some o ∧
      o.status = some 400 ∧ o.chunks = [] ∧ o.reads = 0 ∧ o.writes = 0 ∧
      o.opened = false) :=
  ⟨by decide,
    c3_parse_failure fullEnv "abc" "" 5 (Or.inl (by decide))⟩

/-- C4: for every request (resolved sizes with `B ≥ 1`) in which the `k`-th
source read fails or returns fewer bytes than requested, after `k-1` fully
successful chunks, the handler writes exactly `k-1` chunks to the response,
issues exactly `k` reads and `k-1` writes (so it aborts immediately, with no
further reads or writes and no partial chunk written), and the byte source
is still closed on exit. -/
theorem c4_read_failure (env : Env) (sizeText bufferText : String)
    (S B : Int) (fuel k : Nat)
    (hS : resolveParam sizeText defaultDataSize = some S)
    (hB : resolveParam bufferText defaultBufferSize = some B) (hB1 : 1 ≤ B)
    (henv : env.openOk = true)
    (hk1 : 1 ≤ k) (hk : k ≤ (chunkListI S B).length)
    (hre : ∀ j sz, j < k - 1 → env.readRes j sz = RWResult.ok sz)
    (hwr : ∀ j sz, j < k - 1 → env.writeRes j sz = RWResult.ok sz)
    (hfail : ∀ sz, env.readRes (k - 1) sz ≠ RWResult.ok sz)
    (hfuel : k ≤ fuel) :
    ∃ o, serveHTTP env sizeText bufferText fuel = some o ∧
      o.reads = k ∧ o.writes = k - 1 ∧ o.chunks.length = k - 1 ∧
      o.closed = true ∧
      (o.exitKind = some ExitKind.readError ∨
        o.exitKind = some ExitKind.shortRead) := by
  rw [serveHTTP_loop_eq env sizeText bufferText S B fuel hS hB henv (by omega)]
  obtain ⟨ex, heq, h1, h2, h3, h4⟩ :=
    copyLoop_fail_read env B hB1 (k - 1) S fuel 0 0 []
      (by omega)
      (by intro j sz hj; exact hre j sz (by omega))
      (by intro j sz hj; exact hwr j sz (by omega))
      (by intro sz; have h := hfail sz
          rwa [show k - 1 = 0 + (k - 1) by omega] at h)
      (by omega)
  rw [heq]
  rw [List.length_nil] at h3
  refine ⟨_, rfl, ?_, ?_, ?_, rfl, ?_⟩
  · show ex.reads = k
    omega
  · show ex.writes = k - 1
    omega
  · show ex.chunks.length = k - 1
    omega
  · rcases h4 with h | h
    · exact Or.inl (by show some ex.kind = _; rw [h])
    · exact Or.inr (by show some ex.kind = _; rw [h])

theorem c4_read_failure_witness :
    resolveParam "5" defaultDataSize = some 5 ∧
    resolveParam "1" defaultBufferSize = some 1 ∧ (1:Int) ≤ 1 ∧
    failSecondReadEnv.openOk = true ∧ 1 ≤ 2 ∧
    2 ≤ (chunkListI 5 1).length ∧ 2 ≤ 5 ∧
    (∃ o, serveHTTP failSecondReadEnv "5" "1" 5 = some o ∧
      o.reads = 2 ∧ o.writes = 2 - 1 ∧ o.chunks.length = 2 - 1 ∧
      o.closed = true ∧
      (o.exitKind = some ExitKind.readError ∨
        o.exitKind = some ExitKind.shortRead)) :=
  ⟨by decide, by decide, by decide, rfl, by decide, by decide, by decide,
    c4_read_failure failSecondReadEnv "5" "1" 5 1 5 2 (by decide) (by decide)
      (by decide) rfl (by decide) (by decide)
      (by intro j sz hj
          have hj1 : ¬ j = 1 := by omega
          show (if j = 1 then RWResult.err else RWResult.ok sz) = RWResult.ok sz
          rw [if_neg hj1])
      (by intro j sz hj; rfl)
      (by intro sz h
          exact RWResult.noConfusion
            (show RWResult.err = RWResult.ok sz from h))
      (by decide)⟩

/-- C5: for every request with validly parsed parameters where opening the
byte source fails, the handler responds with status 500, writes no body, and
performs no read or write operations. -/
theorem c5_open_failure (env : Env) (sizeText bufferText : String)
    (S B : Int) (fuel : Nat)
    (hS : resolveParam sizeText defaultDataSize = some S)
    (hB : resolveParam bufferText defaultBufferSize = some B)
    (henv : env.openOk = false) :
    ∃ o, serveHTTP env sizeText bufferText fuel = some o ∧
      o.status = some 500 ∧ o.chunks = [] ∧ o.reads = 0 ∧ o.writes = 0 := by
  simp only [serveHTTP, hS, hB, henv]
  rw [if_neg (by simp)]
  exact ⟨_, rfl, rfl, rfl, rfl, rfl⟩

theorem c5_open_failure_witness :
    resolveParam "5" defaultDataSize = some 5 ∧
    resolveParam "2" defaultBufferSize = some 2 ∧
    noOpenEnv.openOk = false ∧
    (∃ o, serveHTTP noOpenEnv "5" "2" 5 = some o ∧
      o.status = some 500 ∧ o.chunks = [] ∧ o.reads = 0 ∧ o.writes = 0) :=
  ⟨by decide, by decide, rfl,
    c5_open_failure noOpenEnv "5" "2" 5 2 5 (by decide) (by decide) rfl⟩

/-- C6: for every request with resolved sizes `S ≥ 0` and `B ≥ 1` whose loop
ran (in any environment), the `pendingSize` counter starts at `S` and
decreases exactly by the length of each fully transferred chunk, so at exit
it equals `S` minus the sum of the written chunks; it never goes negative
(equivalently, every prefix of the chunk list sums to at most `S`), and it
equals zero on normal completion. -/
theorem c6_pending_invariant (env : Env) (sizeText bufferText : String)
    (S B : Int) (fuel : Nat) (o : Outcome)
    (hS : resolveParam sizeText defaultDataSize = some S) (hS0 : 0 ≤ S)
    (hB : resolveParam bufferText defaultBufferSize = some B) (hB1 : 1 ≤ B)
    (henv : env.openOk = true)
    (hrun : serveHTTP env sizeText bufferText fuel = some o) :
    o.finalPending = some (S - o.chunks.sum) ∧
    (∀ i, ((o.chunks.take i).sum) ≤ S) ∧
    0 ≤ S - o.chunks.sum ∧
    (o.exitKind = some ExitKind.completed → o.chunks.sum = S) := by
  rw [serveHTTP_loop_eq env sizeText bufferText S B fuel hS hB henv
    (by omega)] at hrun
  rcases hloop : copyLoop env B fuel S 0 0 [] with _ | ex
  · rw [hloop] at hrun
    exact Option.noConfusion hrun
  · rw [hloop] at hrun
    obtain rfl : loopOutcome ex = o := Option.some.inj hrun
    obtain ⟨nc, h1, h2, h3, h4, h5⟩ :=
      copyLoop_bounds env B hB1 fuel S 0 0 [] ex hS0 hloop
    rw [List.nil_append] at h1
    subst h1
    refine ⟨?_, h4, ?_, ?_⟩
    · show some ex.pending = some (S - ex.chunks.sum)
      rw [h2]
    · show (0:Int) ≤ S - ex.chunks.sum
      omega
    · intro h
      have hk : ex.kind = ExitKind.completed :=
        Option.some.inj (show some ex.kind = some ExitKind.completed from h)
      have h0 := h5 hk
      show ex.chunks.sum = S
      omega

theorem c6_pending_invariant_witness :
    resolveParam "5" defaultDataSize = some 5 ∧ (0:Int) ≤ 5 ∧
    resolveParam "2" defaultBufferSize = some 2 ∧ (1:Int) ≤ 2 ∧
    fullEnv.openOk = true ∧
    serveHTTP fullEnv "5" "2" 5 = some fiveTwoOutcome ∧
    (fiveTwoOutcome.finalPending = some (5 - fiveTwoOutcome.chunks.sum) ∧
     (∀ i, ((fiveTwoOutcome.chunks.take i).sum) ≤ 5) ∧
     (0:Int) ≤ 5 - fiveTwoOutcome.chunks.sum ∧
     (fiveTwoOutcome.exitKind = some ExitKind.completed →
       fiveTwoOutcome.chunks.sum = 5)) :=
  ⟨by decide, by decide, by decide, by decide, rfl, by decide,
    c6_pending_invariant fullEnv "5" "2" 5 2 5 fiveTwoOutcome (by decide)
      (by decide) (by decide) (by decide) rfl (by decide)⟩

/-- C7: for every request whose `size` parameter resolves to `0` (with any
valid buffer `B ≥ 1`), in any environment whose byte source opens, the
handler responds with status 200 and a zero-length body, and the copy loop
performs no read and no write operations. -/
theorem c7_zero_size (env : Env) (sizeText bufferText : String) (B : Int)
    (fuel : Nat)
    (hS : resolveParam sizeText defaultDataSize = some 0)
    (hB : resolveParam bufferText defaultBufferSize = some B) (hB1 : 1 ≤ B)
    (henv : env.openOk = true) :
    ∃ o, serveHTTP env sizeText bufferText fuel = some o ∧
      o.status = some 200 ∧ o.chunks = [] ∧ o.chunks.sum = 0 ∧
      o.reads = 0 ∧ o.writes = 0 ∧ o.exitKind = some ExitKind.completed := by
  rw [serveHTTP_loop_eq env sizeText bufferText 0 B fuel hS hB henv (by omega),
    copyLoop_exit env B fuel 0 0 0 [] (by omega)]
  exact ⟨_, rfl, rfl, rfl, rfl, rfl, rfl, rfl⟩

theorem c7_zero_size_witness :
    resolveParam "0" defaultDataSize = some 0 ∧
    resolveParam "2" defaultBufferSize = some 2 ∧ (1:Int) ≤ 2 ∧
    fullEnv.openOk = true ∧
    (∃ o, serveHTTP fullEnv "0" "2" 7 = some o ∧
      o.status = some 200 ∧ o.chunks = [] ∧ o.chunks.sum = 0 ∧
      o.reads = 0 ∧ o.writes = 0 ∧ o.exitKind = some ExitKind.completed) :=
  ⟨by decide, by decide, by decide, rfl,
    c7_zero_size fullEnv "0" "2" 2 7 (by decide) (by decide) (by decide) rfl⟩

/-- C8: the copy loop terminates only under the precondition `buffer ≥ 1`:
when the `buffer` parameter parses to `0` and the size resolves to `S > 0`,
each iteration computes a chunk length of `min(S, 0) = 0`, reads and writes
zero bytes successfully, leaves `pendingSize` unchanged, and the loop never
terminates: for every iteration bound `fuel` the modelled handler has not
exited. -/
theorem c8_zero_buffer_diverges (env : Env) (sizeText bufferText : String)
    (S : Int)
    (hS : resolveParam sizeText defaultDataSize = some S) (hSpos : 0 < S)
    (hB : resolveParam bufferText defaultBufferSize = some 0)
    (henv : env.openOk = true)
    (hread : ∀ j sz, env.readRes j sz = RWResult.ok sz)
    (hwrite : ∀ j sz, env.writeRes j sz = RWResult.ok sz) :
    ∀ fuel, serveHTTP env sizeText bufferText fuel = none := by
  have hloop : ∀ fuel r w acc, copyLoop env 0 fuel S r w acc = none := by
    intro fuel
    induction fuel with
    | zero =>
      intro r w acc
      exact copyLoop_fuel_zero env 0 S r w acc hSpos
    | succ fuel ih =>
      intro r w acc
      rw [copyLoop_succ env 0 fuel S r w acc hSpos]
      have h0 : (if S > (0:Int) then (0:Int) else S) = 0 := if_pos hSpos
      simp only [h0, hread, hwrite, if_true, eq_self_iff_true, sub_zero]
      exact ih (r + 1) (w + 1) (acc ++ [0])
  intro fuel
  rw [serveHTTP_loop_eq env sizeText bufferText S 0 fuel hS hB henv (by omega),
    hloop fuel 0 0 []]
  rfl

theorem c8_zero_buffer_diverges_witness :
    resolveParam "3" defaultDataSize = some 3 ∧ (0:Int) < 3 ∧
    resolveParam "0" defaultBufferSize = some 0 ∧
    fullEnv.openOk = true ∧
    (∀ fuel, serveHTTP fullEnv "3" "0" fuel = none) :=
  ⟨by decide, by decide, by decide, rfl,
    c8_zero_buffer_diverges fullEnv "3" "0" 3 (by decide) (by decide)
      (by decide) rfl (fun _ _ => rfl) (fun _ _ => rfl)⟩

/-- C9: for every request whose `buffer` parameter parses as a negative
integer (with a valid `size`), when the byte source opens the handler is not
rejected with 400: it sends status 200 and the content-type header, then
panics allocating the chunk buffer with a negative length, so no reads or
writes happen and the loop never runs; the deferred release still closes the
byte source during unwinding. -/
theorem c9_negative_buffer_panics (env : Env) (sizeText bufferText : String)
    (S B : Int) (fuel : Nat)
    (hS : resolveParam sizeText defaultDataSize = some S)
    (hB : resolveParam bufferText defaultBufferSize = some B) (hBneg : B < 0)
    (henv : env.openOk = true) :
    ∃ o, serveHTTP env sizeText bufferText fuel = some o ∧
      o.status = some 200 ∧ o.status ≠ some 400 ∧
      o.contentType = some "application/octet-stream" ∧
      o.panicked = true ∧ o.opened = true ∧ o.closed = true ∧
      o.reads = 0 ∧ o.writes = 0 ∧ o.exitKind = none := by
  simp only [serveHTTP, hS, hB, henv, eq_self_iff_true, if_true, if_pos hBneg]
  exact ⟨_, rfl, rfl, by decide, rfl, rfl, rfl, rfl, rfl, rfl, rfl⟩

theorem c9_negative_buffer_panics_witness :
    resolveParam "5" defaultDataSize = some 5 ∧
    resolveParam "-3" defaultBufferSize = some (-3) ∧ (-3:Int) < 0 ∧
    fullEnv.openOk = true ∧
    (∃ o, serveHTTP fullEnv "5" "-3" 5 = some o ∧
      o.status = some 200 ∧ o.status ≠ some 400 ∧
      o.contentType = some "application/octet-stream" ∧
      o.panicked = true ∧ o.opened = true ∧ o.closed = true ∧
      o.reads = 0 ∧ o.writes = 0 ∧ o.exitKind = none) :=
  ⟨by decide, by decide, by decide, rfl,
    c9_negative_buffer_panics fullEnv "5" "-3" 5 (-3) 5 (by decide) (by decide)
      (by decide) rfl⟩

/-- C10: for every request whose `size` parameter parses as a negative
integer (with a buffer resolving to `B ≥ 0`), in any environment whose byte
source opens, the handler accepts it without a 400: the byte source is
opened, status 200 and `Content-Type: application/octet-stream` are sent,
the loop guard is immediately false, and the body is empty with no read or
write operations performed. -/
theorem c10_negative_size (env : Env) (sizeText bufferText : String)
    (S B : Int) (fuel : Nat)
    (hS : resolveParam sizeText defaultDataSize = some S) (hSneg : S < 0)
    (hB : resolveParam bufferText defaultBufferSize = some B) (hB0 : 0 ≤ B)
    (henv : env.openOk = true) :
    ∃ o, serveHTTP env sizeText bufferText fuel = some o ∧
      o.status = some 200 ∧ o.status ≠ some 400 ∧
      o.contentType = some "application/octet-stream" ∧
      o.opened = true ∧ o.chunks = [] ∧ o.reads = 0 ∧ o.writes = 0 ∧
      o.exitKind = some ExitKind.completed := by
  rw [serveHTTP_loop_eq env sizeText bufferText S B fuel hS hB henv (by omega),
    copyLoop_exit env B fuel S 0 0 [] (by omega)]
  exact ⟨_, rfl, rfl, by simp [loopOutcome], rfl, rfl, rfl, rfl, rfl, rfl⟩

theorem c10_negative_size_witness :
    resolveParam "-4" defaultDataSize = some (-4) ∧ (-4:Int) < 0 ∧
    resolveParam "2" defaultBufferSize = some 2 ∧ (0:Int) ≤ 2 ∧
    fullEnv.openOk = true ∧
    (∃ o, serveHTTP fullEnv "-4" "2" 5 = some o ∧
      o.status = some 200 ∧ o.status ≠ some 400 ∧
      o.contentType = some "application/octet-stream" ∧
      o.opened = true ∧ o.chunks = [] ∧ o.reads = 0 ∧ o.writes = 0 ∧
      o.exitKind = some ExitKind.completed) :=
  ⟨by decide, by decide, by decide, by decide, rfl,
    c10_negative_size fullEnv "-4" "2" (-4) 2 5 (by decide) (by decide)
      (by decide) (by decide) rfl⟩
